import Mathlib

/-!
Verification of the budget-tracking application's project/expense core:
the `budgetStatus` derived aggregate (src/api/src/models/Project.js),
the expense schema and its pre-save hook (Expense model), and the
project/expense route handlers (src/api/src/routes/project.routes.js,
src/api/src/routes/expense.routes.js), shallowly embedded in Lean.

Money amounts are modelled as exact rationals; Mongo ObjectIds as
naturals; timestamps as naturals.  Optional / possibly-missing JSON
fields are `Option`s, with JavaScript falsiness made explicit at each
use site (a falsy string is a missing or empty one; a falsy number is
zero).  The mongoose schemas set `trim: true` on strings; every string
in this development is whitespace-free, where trimming is the identity,
so the model checks `required` directly against the untrimmed string.
-/

namespace BudgetApp

abbrev UserId := Nat
abbrev ProjectId := Nat
abbrev ExpenseId := Nat
abbrev Time := Nat

/-- JavaScript Math.round: round half toward positive infinity. -/
def jsRound (q : ℚ) : ℤ := ⌊q + 1/2⌋

/-- Contribution of one populated expense document to the total:
the source reduces with `sum + (exp.amount || 0)`, so a missing or
falsy (zero) amount contributes 0. -/
def amountOrZero (amount : Option ℚ) : ℚ :=
  match amount with
  | none => 0
  | some v => if v = 0 then 0 else v

/-- The reduce in the `budgetStatus` virtual getter. -/
def totalOf (exps : List (Option ℚ)) : ℚ :=
  exps.foldl (fun sum exp => sum + amountOrZero exp) 0

/-- The record returned by the `budgetStatus` virtual getter. -/
structure BudgetStatus where
  totalSpent : ℚ
  percentage : ℤ
  remaining : ℚ
  isOverBudget : Bool
deriving Repr, DecidableEq

/-- The `budgetStatus` virtual getter of ProjectSchema: `null` when the
`totalExpenses` virtual is not populated, otherwise the derived record;
each branch guards on the truthiness of `this.budget`. -/
def budgetStatusOf (budget : ℚ) (totalExpenses : Option (List (Option ℚ))) :
    Option BudgetStatus :=
  match totalExpenses with
  | none => none
  | some exps =>
    let total := totalOf exps
    some
      { totalSpent := total
        percentage := if budget = 0 then 0 else min 100 (jsRound (total / budget * 100))
        remaining := if budget = 0 then 0 else max 0 (budget - total)
        isOverBudget := if budget = 0 then false else decide (budget < total) }

theorem amountOrZero_some (v : ℚ) : amountOrZero (some v) = v := by
  by_cases h : v = 0 <;> simp [amountOrZero, h]

theorem foldl_amount (c : ℚ) (l : List (Option ℚ)) :
    l.foldl (fun sum exp => sum + amountOrZero exp) c = c + (l.map amountOrZero).sum := by
  induction l generalizing c with
  | nil => simp
  | cons x xs ih => simp [ih, add_assoc]

theorem totalOf_map_some (xs : List ℚ) : totalOf (xs.map some) = xs.sum := by
  rw [totalOf, foldl_amount, zero_add, List.map_map,
    show amountOrZero ∘ some = id from funext amountOrZero_some, List.map_id]

theorem budgetStatusOf_some (budget : ℚ) (exps : List (Option ℚ)) :
    budgetStatusOf budget (some exps) =
      some
        { totalSpent := totalOf exps
          percentage := if budget = 0 then 0 else min 100 (jsRound (totalOf exps / budget * 100))
          remaining := if budget = 0 then 0 else max 0 (budget - totalOf exps)
          isOverBudget := if budget = 0 then false else decide (budget < totalOf exps) } := rfl

/-- The source computes `Math.min(100, Math.round(pct))`; the spec says
`round(min(100, pct))`.  The two commute because rounding is monotone
and fixes 100. -/
theorem min_jsRound (x : ℚ) : min (100 : ℤ) (jsRound x) = jsRound (min 100 x) := by
  have h100 : ⌊(100 : ℚ) + 1/2⌋ = 100 := by norm_num [Int.floor_eq_iff]
  unfold jsRound
  rcases le_total x 100 with h | h
  · have h2 := Int.floor_le_floor (α := ℚ) (a := x + 1/2) (b := 100 + 1/2) (by linarith)
    rw [min_eq_right h]
    exact min_eq_right (by omega)
  · have h2 := Int.floor_le_floor (α := ℚ) (a := 100 + 1/2) (b := x + 1/2) (by linarith)
    rw [min_eq_left h, h100]
    exact min_eq_left (by omega)

theorem budgetStatus_scenario :
    budgetStatusOf 1000 (some ([600, 600].map some)) =
      some { totalSpent := 1200, percentage := 100, remaining := 0, isOverBudget := true } := by
  have htot : totalOf ([600, 600].map some) = 1200 := by
    rw [totalOf_map_some]; norm_num
  have hround : jsRound ((1200 : ℚ) / 1000 * 100) = 120 := by
    rw [show (1200 : ℚ) / 1000 * 100 = 120 by norm_num]
    norm_num [jsRound, Int.floor_eq_iff]
  rw [budgetStatusOf_some, htot]
  simp only [Option.some.injEq, BudgetStatus.mk.injEq]
  refine ⟨by trivial, ?_, ?_, ?_⟩
  · rw [if_neg (by norm_num), hround]; rfl
  · rw [if_neg (by norm_num), show (1000 : ℚ) - 1200 = -200 by norm_num,
      max_eq_left (by norm_num)]
  · rw [if_neg (by norm_num)]
    simp only [decide_eq_true_eq]
    norm_num

/-- C1: for budget b and populated expense amounts xs, the derived
BudgetStatus has totalSpent = sum xs; percentage = round(min(100,
total/b*100)) and 0 when b is falsy; remaining = max(0, b - total),
never negative; isOverBudget = total > b and false when b is falsy;
and the b=1000, xs=[600,600] scenario yields {1200, 100, 0, true}. -/
theorem budgetStatus_spec (b : ℚ) (xs : List ℚ) (hxs : ∀ a ∈ xs, 0 ≤ a) :
    ∃ s, budgetStatusOf b (some (xs.map some)) = some s ∧
      s.totalSpent = xs.sum ∧
      (b = 0 → s.percentage = 0) ∧
      (b ≠ 0 → s.percentage = jsRound (min 100 (xs.sum / b * 100))) ∧
      s.remaining = max 0 (b - xs.sum) ∧
      0 ≤ s.remaining ∧
      (b = 0 → s.isOverBudget = false) ∧
      (b ≠ 0 → (s.isOverBudget = true ↔ xs.sum > b)) ∧
      budgetStatusOf 1000 (some ([600, 600].map some)) =
        some { totalSpent := 1200, percentage := 100, remaining := 0, isOverBudget := true } := by
  rw [budgetStatusOf_some]
  refine ⟨_, rfl, totalOf_map_some xs, ?_, ?_, ?_, ?_, ?_, ?_, budgetStatus_scenario⟩
  · intro hb; simp [hb]
  · intro hb; simp only [if_neg hb, totalOf_map_some, min_jsRound]
  · by_cases hb : b = 0
    · subst hb
      have hsum : 0 ≤ xs.sum := List.sum_nonneg hxs
      have hmax : max (0 : ℚ) (0 - xs.sum) = 0 := max_eq_left (by linarith)
      simp [hmax, hsum]
    · simp only [if_neg hb, totalOf_map_some]
  · by_cases hb : b = 0 <;> simp [hb, le_max_left]
  · intro hb; simp [hb]
  · intro hb; simp [hb, totalOf_map_some]

theorem budgetStatus_spec_witness :
    (∀ a ∈ [(600 : ℚ), 600], 0 ≤ a) ∧
    ∃ s, budgetStatusOf 1000 (some (([(600 : ℚ), 600]).map some)) = some s ∧
      s.totalSpent = [(600 : ℚ), 600].sum ∧
      ((1000 : ℚ) = 0 → s.percentage = 0) ∧
      ((1000 : ℚ) ≠ 0 → s.percentage = jsRound (min 100 ([(600 : ℚ), 600].sum / 1000 * 100))) ∧
      s.remaining = max 0 (1000 - [(600 : ℚ), 600].sum) ∧
      0 ≤ s.remaining ∧
      ((1000 : ℚ) = 0 → s.isOverBudget = false) ∧
      ((1000 : ℚ) ≠ 0 → (s.isOverBudget = true ↔ [(600 : ℚ), 600].sum > 1000)) ∧
      budgetStatusOf 1000 (some ([600, 600].map some)) =
        some { totalSpent := 1200, percentage := 100, remaining := 0, isOverBudget := true } :=
  ⟨by norm_num, budgetStatus_spec 1000 [600, 600] (by norm_num)⟩

/-- C10: budgetStatus is null exactly when totalExpenses is not
populated; any populated list, the empty one included, yields a full
record whose totalSpent adds amountOrZero of each entry, and a missing
or falsy amount contributes 0. -/
theorem budgetStatus_populated (b : ℚ) (xs : List (Option ℚ)) :
    budgetStatusOf b none = none ∧
    (budgetStatusOf b (some xs)).isSome = true ∧
    (∃ s, budgetStatusOf b (some xs) = some s ∧
      s.totalSpent = (xs.map amountOrZero).sum) ∧
    (budgetStatusOf b (some [])).isSome = true ∧
    amountOrZero none = 0 ∧ amountOrZero (some 0) = 0 := by
  refine ⟨rfl, rfl, ⟨_, budgetStatusOf_some b xs, ?_⟩, rfl, rfl, by simp [amountOrZero]⟩
  simp [totalOf, foldl_amount]

/-- A Project document (ProjectSchema with `timestamps: true`). -/
structure Project where
  id : ProjectId
  name : String
  description : Option String
  budget : ℚ
  startDate : Time
  endDate : Option Time
  createdBy : UserId
  members : List UserId
  createdAt : Time
  updatedAt : Time
deriving Repr, DecidableEq

/-- ProjectSchema document validation: `name` required (non-empty),
`budget` required with `min: 0`. -/
def projectValid (p : Project) : Prop :=
  p.name ≠ "" ∧ 0 ≤ p.budget

instance (p : Project) : Decidable (projectValid p) := by
  unfold projectValid; infer_instance

/-- Request body of POST /projects and PUT /projects/:id; absent JSON
fields are `none`. -/
structure ProjectBody where
  name : Option String
  description : Option String
  budget : Option ℚ
  startDate : Option Time
  endDate : Option Time
  members : Option (List UserId)
deriving Repr, DecidableEq

/-- The `new Project({...})` construction in the create handler:
`createdBy = req.user._id`, `members = [req.user._id]`,
`startDate = startDate || new Date()`. -/
def buildProject (caller : UserId) (pid : ProjectId) (body : ProjectBody) (now : Time) :
    Project :=
  { id := pid
    name := body.name.getD ""
    description := body.description
    budget := body.budget.getD 0
    startDate := body.startDate.getD now
    endDate := body.endDate
    createdBy := caller
    members := [caller]
    createdAt := now
    updatedAt := now }

/-- Outcome of a project route handler, tagged with the HTTP status the
route returns in that case. -/
inductive ProjectResult where
  /-- 400, explicit handler validation -/
  | badRequest
  /-- 404, project not found or caller not authorized -/
  | notFound
  /-- 201, POST success -/
  | created (p : Project)
  /-- 200, PUT success -/
  | updated (p : Project)
  /-- 500, an error thrown by save/validation was caught -/
  | serverError
deriving Repr, DecidableEq

/-- POST /projects: explicit `!name || budget === undefined` check
(400), then `project.save()`; a schema-validation failure thrown by
save is caught and mapped to 500. -/
def createProjectHandler (caller : UserId) (body : ProjectBody) (pid : ProjectId)
    (now : Time) : ProjectResult :=
  if body.name.getD "" = "" ∨ body.budget = none then .badRequest
  else
    let p := buildProject caller pid body now
    if projectValid p then .created p else .serverError

/-- The members fix-up in the PUT /projects/:id handler: if a members
list is supplied, the creator is pushed when absent. -/
def forceOwner (caller : UserId) (ms : List UserId) : List UserId :=
  if caller ∈ ms then ms else ms ++ [caller]

/-- The `$set: updates` document built by the PUT /projects/:id handler,
applied to a project: only supplied fields change; `createdBy` is never
in the update set. -/
def applyProjectUpdates (caller : UserId) (body : ProjectBody) (p : Project)
    (now : Time) : Project :=
  { p with
    name := body.name.getD p.name
    description := match body.description with
      | none => p.description
      | some d => some d
    budget := body.budget.getD p.budget
    startDate := body.startDate.getD p.startDate
    endDate := match body.endDate with
      | none => p.endDate
      | some d => some d
    members := match body.members with
      | none => p.members
      | some ms => forceOwner caller ms
    updatedAt := now }

/-- PUT /projects/:id: `findOneAndUpdate({_id, createdBy: caller})`
with `runValidators`; no match (wrong id or non-owner) is 404, a
validation failure is caught as 500. -/
def updateProjectHandler (caller : UserId) (pid : ProjectId) (body : ProjectBody)
    (p : Project) (now : Time) : ProjectResult :=
  if p.id = pid ∧ p.createdBy = caller then
    let p' := applyProjectUpdates caller body p now
    if projectValid p' then .updated p' else .serverError
  else .notFound

/-- POST /projects/:id/members: 400 when userId is missing, otherwise
`findOneAndUpdate({_id, createdBy: caller, members: {$ne: userId}},
{$addToSet: {members: userId}})`; no match is 404. -/
def addMemberHandler (caller : UserId) (pid : ProjectId) (newMember : Option UserId)
    (p : Project) : ProjectResult :=
  match newMember with
  | none => .badRequest
  | some m =>
    if p.id = pid ∧ p.createdBy = caller ∧ m ∉ p.members then
      .updated { p with members := p.members ++ [m] }
    else .notFound

/-- Projects producible by the public operations: created by POST
/projects, or obtained from a producible project by PUT /projects/:id
or POST /projects/:id/members. -/
inductive ReachableProject : Project → Prop where
  | create : ∀ caller body pid now p,
      createProjectHandler caller body pid now = .created p → ReachableProject p
  | update : ∀ caller pid body p now p',
      ReachableProject p → updateProjectHandler caller pid body p now = .updated p' →
      ReachableProject p'
  | addMember : ∀ caller pid m p p',
      ReachableProject p → addMemberHandler caller pid m p = .updated p' →
      ReachableProject p'

theorem forceOwner_mem (caller : UserId) (ms : List UserId) :
    caller ∈ forceOwner caller ms := by
  unfold forceOwner
  by_cases h : caller ∈ ms <;> simp [h]

/-- C2: every project reachable through the public operations has its
owner in its member list: creation sets members = [creator], update
force-includes the owner into any supplied members list, and addMember
only adds, so the owner cannot be removed. -/
theorem owner_always_member (p : Project) (h : ReachableProject p) :
    p.createdBy ∈ p.members := by
  induction h with
  | create caller body pid now q hc =>
    unfold createProjectHandler at hc
    split at hc
    · exact absurd hc (by simp)
    · dsimp only at hc
      split at hc
      · cases hc with
        | refl => simp [buildProject]
      · exact absurd hc (by simp)
  | update caller pid body q now q' hr hu ih =>
    unfold updateProjectHandler at hu
    split at hu
    · rename_i hown
      dsimp only at hu
      split at hu
      · cases hu with
        | refl =>
          rcases hown with ⟨-, hcb⟩
          cases hb : body.members with
          | none => simpa [applyProjectUpdates, hb] using ih
          | some ms =>
            simp only [applyProjectUpdates, hb]
            rw [hcb]
            exact forceOwner_mem caller ms
      · exact absurd hu (by simp)
    · exact absurd hu (by simp)
  | addMember caller pid m q q' hr ha ih =>
    unfold addMemberHandler at ha
    cases m with
    | none => simp at ha
    | some u =>
      dsimp only at ha
      split at ha
      · cases ha with
        | refl => simpa using Or.inl ih
      · exact absurd ha (by simp)

theorem owner_always_member_witness :
    ReachableProject (buildProject 7 1 ⟨some "p", none, some 5, none, none, none⟩ 3) ∧
    (buildProject 7 1 ⟨some "p", none, some 5, none, none, none⟩ 3).createdBy ∈
      (buildProject 7 1 ⟨some "p", none, some 5, none, none, none⟩ 3).members := by
  have hreach : ReachableProject (buildProject 7 1 ⟨some "p", none, some 5, none, none, none⟩ 3) :=
    ReachableProject.create 7 ⟨some "p", none, some 5, none, none, none⟩ 1 3 _ (by decide)
  exact ⟨hreach, owner_always_member _ hreach⟩

/-- C4 counterexample: POST /projects with a well-formed name and
budget = -5 passes the handler's explicit check (budget is present),
then fails mongoose schema validation inside save, which the catch
block maps to 500 — not to a 400 ValidationError as claimed. -/
theorem createProject_negative_budget_is_500 :
    createProjectHandler 1 ⟨some "p", none, some (-5), none, none, none⟩ 1 0 =
      .serverError ∧
    createProjectHandler 1 ⟨some "p", none, some (-5), none, none, none⟩ 1 0 ≠
      .badRequest := by
  constructor
  · unfold createProjectHandler
    rw [if_neg (by simp)]
    rw [if_neg (by simp [projectValid, buildProject])]
  · intro h
    unfold createProjectHandler at h
    rw [if_neg (by simp)] at h
    dsimp only at h
    split at h
    · exact absurd h (by simp)
    · exact absurd h (by simp)

/-- C4 amended: createProject returns 400 exactly when the name is
missing/empty or the budget is missing; a present-but-negative budget
instead fails schema validation inside save and surfaces as 500. -/
theorem createProject_validation (caller : UserId) (body : ProjectBody)
    (pid : ProjectId) (now : Time) :
    (createProjectHandler caller body pid now = .badRequest ↔
      body.name.getD "" = "" ∨ body.budget = none) ∧
    (∀ b, body.budget = some b → b < 0 → body.name.getD "" ≠ "" →
      createProjectHandler caller body pid now = .serverError) := by
  constructor
  · unfold createProjectHandler
    constructor
    · intro h
      by_contra hc
      rw [if_neg hc] at h
      dsimp only at h
      split at h <;> simp at h
    · intro h
      rw [if_pos h]
  · intro b hb hneg hname
    unfold createProjectHandler
    rw [if_neg (by simp [hname, hb])]
    rw [if_neg (by simp [projectValid, buildProject, hb]; intro _; linarith)]

theorem createProject_validation_witness :
    (createProjectHandler 1 ⟨some "p", none, some (-5), none, none, none⟩ 1 0 = .badRequest ↔
      (ProjectBody.mk (some "p") none (some (-5)) none none none).name.getD "" = "" ∨
      (ProjectBody.mk (some "p") none (some (-5)) none none none).budget = none) ∧
    (∀ b, (ProjectBody.mk (some "p") none (some (-5)) none none none).budget = some b →
      b < 0 → (ProjectBody.mk (some "p") none (some (-5)) none none none).name.getD "" ≠ "" →
      createProjectHandler 1 ⟨some "p", none, some (-5), none, none, none⟩ 1 0 = .serverError) :=
  createProject_validation 1 ⟨some "p", none, some (-5), none, none, none⟩ 1 0

/-- An Expense document (ExpenseSchema with `timestamps: true`). -/
structure Expense where
  id : ExpenseId
  description : String
  amount : ℚ
  category : String
  date : Time
  project : ProjectId
  createdBy : UserId
  createdAt : Time
deriving Repr, DecidableEq

/-- The fixed category enumeration of ExpenseSchema. -/
def expenseCategories : List String :=
  ["marketing", "development", "design", "operations", "hr", "other"]

/-- ExpenseSchema document validation: `description` required,
`amount` required with `min: 0.01`, `category` in the enumeration. -/
def expenseValid (e : Expense) : Prop :=
  e.description ≠ "" ∧ (1 : ℚ) / 100 ≤ e.amount ∧ e.category ∈ expenseCategories

instance (e : Expense) : Decidable (expenseValid e) := by
  unfold expenseValid; infer_instance

/-- The persistent store: the Project and Expense collections. -/
structure AppState where
  projects : List Project
  expenses : List Expense
deriving Repr, DecidableEq

/-- The `$or: [{createdBy: userId}, {members: userId}]` access filter
used by every project-scoped read. -/
def hasAccess (u : UserId) (p : Project) : Bool :=
  p.createdBy == u || p.members.contains u

/-- Outcome of DELETE /projects/:id, tagged with HTTP status. -/
inductive DeleteProjectResult where
  /-- 404, no project with that id owned by the caller -/
  | notFound
  /-- 200, with the `{deleted: true}` acknowledgment and new store -/
  | deleted (ack : Bool) (st : AppState)
deriving Repr, DecidableEq

/-- DELETE /projects/:id: `findOneAndDelete({_id, createdBy: caller})`,
then `Expense.deleteMany({project: project._id})`, then respond
`{deleted: true}`. -/
def deleteProjectHandler (caller : UserId) (pid : ProjectId) (st : AppState) :
    DeleteProjectResult :=
  match st.projects.find? (fun p => p.id == pid && p.createdBy == caller) with
  | none => .notFound
  | some p =>
    .deleted true
      { projects := st.projects.eraseP (fun q => q.id == pid && q.createdBy == caller)
        expenses := st.expenses.filter (fun e => !(e.project == p.id)) }

/-- C3: DELETE /projects/:id succeeds exactly when some stored project
has the requested id with the caller as creator; on success the
response acknowledges with deleted = true and no expense referencing
the project remains. -/
theorem deleteProject_spec (caller : UserId) (pid : ProjectId) (st : AppState) :
    ((∃ ack st', deleteProjectHandler caller pid st = .deleted ack st') ↔
      ∃ p ∈ st.projects, p.id = pid ∧ p.createdBy = caller) ∧
    (∀ ack st', deleteProjectHandler caller pid st = .deleted ack st' →
      ack = true ∧ st'.expenses.countP (fun e => e.project == pid) = 0) := by
  unfold deleteProjectHandler
  cases hfind : st.projects.find? (fun p => p.id == pid && p.createdBy == caller) with
  | none =>
    rw [List.find?_eq_none] at hfind
    constructor
    · constructor
      · rintro ⟨ack, st', h⟩; simp at h
      · rintro ⟨p, hp, hid, hcb⟩
        exact absurd (by simp [hid, hcb]) (hfind p hp)
    · intro ack st' h; simp at h
  | some p =>
    have hmem := List.mem_of_find?_eq_some hfind
    have hpred := List.find?_some hfind
    simp only [Bool.and_eq_true, beq_iff_eq] at hpred
    constructor
    · constructor
      · intro _; exact ⟨p, hmem, hpred.1, hpred.2⟩
      · intro _; exact ⟨true, _, rfl⟩
    · intro ack st' h
      cases h with
      | refl =>
        refine ⟨rfl, ?_⟩
        rw [List.countP_eq_zero]
        intro e he
        rw [List.mem_filter] at he
        simp only [Bool.not_eq_true', beq_eq_false_iff_ne, ne_eq] at he
        simp only [beq_iff_eq]
        rw [hpred.1] at he
        exact he.2

theorem deleteProject_spec_witness :
    ((∃ ack st',
        deleteProjectHandler 1 1
          ⟨[{ id := 1, name := "p", description := none, budget := 50, startDate := 0,
              endDate := none, createdBy := 1, members := [1], createdAt := 0, updatedAt := 0 }],
           [{ id := 1, description := "d", amount := 5, category := "other", date := 0,
              project := 1, createdBy := 1, createdAt := 0 }]⟩ = .deleted ack st') ↔
      ∃ p ∈ [{ id := 1, name := "p", description := none, budget := 50, startDate := 0,
               endDate := none, createdBy := 1, members := [1], createdAt := 0,
               updatedAt := 0 : Project }], p.id = 1 ∧ p.createdBy = 1) ∧
    (∀ ack st',
      deleteProjectHandler 1 1
        ⟨[{ id := 1, name := "p", description := none, budget := 50, startDate := 0,
            endDate := none, createdBy := 1, members := [1], createdAt := 0, updatedAt := 0 }],
         [{ id := 1, description := "d", amount := 5, category := "other", date := 0,
            project := 1, createdBy := 1, createdAt := 0 }]⟩ = .deleted ack st' →
      ack = true ∧ st'.expenses.countP (fun e => e.project == 1) = 0) :=
  deleteProject_spec 1 1
    ⟨[{ id := 1, name := "p", description := none, budget := 50, startDate := 0,
        endDate := none, createdBy := 1, members := [1], createdAt := 0, updatedAt := 0 }],
     [{ id := 1, description := "d", amount := 5, category := "other", date := 0,
        project := 1, createdBy := 1, createdAt := 0 }]⟩

/-- Request body of POST /expenses; absent JSON fields are `none`. -/
structure ExpenseBody where
  description : Option String
  amount : Option ℚ
  category : Option String
  date : Option Time
  projectId : Option ProjectId
deriving Repr, DecidableEq

/-- The ExpenseSchema pre-save hook:
`Project.updateOne({_id: this.project}, {$set: {updatedAt: new Date()}})`,
which rewrites the first (in Mongo, the unique) project with that id. -/
def touchFirstProject (pid : ProjectId) (now : Time) : List Project → List Project
  | [] => []
  | p :: ps =>
    if p.id == pid then { p with updatedAt := now } :: ps
    else p :: touchFirstProject pid now ps

/-- Outcome of POST /expenses, tagged with HTTP status. -/
inductive CreateExpenseResult where
  /-- 400, explicit handler validation -/
  | badRequest
  /-- 404, project missing or caller without access -/
  | notFound
  /-- 201, with the created expense and the new store -/
  | created (e : Expense) (st : AppState)
  /-- 500, an error thrown by save/validation was caught -/
  | serverError
deriving Repr, DecidableEq

/-- The `new Expense({...})` construction in the POST /expenses handler:
`project = projectId`, `createdBy = req.user._id`,
`date = date || new Date()`. -/
def builtExpense (caller : UserId) (body : ExpenseBody) (eid : ExpenseId)
    (now : Time) : Expense :=
  { id := eid
    description := body.description.getD ""
    amount := body.amount.getD 0
    category := body.category.getD ""
    date := body.date.getD now
    project := body.projectId.getD 0
    createdBy := caller
    createdAt := now }

/-- POST /expenses: explicit
`!description || amount === undefined || !category || !projectId` check
(400), project access check (404), then `expense.save()`: mongoose
validation precedes the pre-save hook, so a schema failure (caught as
500) leaves the store untouched, while success runs the hook touching
the project's updatedAt and inserts the expense. -/
def createExpenseHandler (caller : UserId) (body : ExpenseBody) (eid : ExpenseId)
    (now : Time) (st : AppState) : CreateExpenseResult :=
  if body.description.getD "" = "" ∨ body.amount = none ∨
      body.category.getD "" = "" ∨ body.projectId = none then .badRequest
  else
    match st.projects.find?
        (fun p => p.id == body.projectId.getD 0 && hasAccess caller p) with
    | none => .notFound
    | some _ =>
      if expenseValid (builtExpense caller body eid now) then
        .created (builtExpense caller body eid now)
          { projects := touchFirstProject (body.projectId.getD 0) now st.projects
            expenses := st.expenses ++ [builtExpense caller body eid now] }
      else .serverError

/-- A stored project: id 1, owned by user 1, with member user 2. -/
def sampleProject : Project :=
  { id := 1, name := "p", description := none, budget := 50, startDate := 0,
    endDate := none, createdBy := 1, members := [1, 2], createdAt := 0, updatedAt := 0 }

/-- A stored expense on project 1, created by member user 2. -/
def sampleExpense : Expense :=
  { id := 1, description := "d", amount := 5, category := "other", date := 0,
    project := 1, createdBy := 2, createdAt := 0 }

/-- A store holding the sample project and the sample expense. -/
def sampleState : AppState := ⟨[sampleProject], [sampleExpense]⟩

/-- C5 counterexample: POST /expenses by the project owner with
amount = -1 and a valid category passes the handler's explicit check
(amount is present), then fails schema validation (min 0.01) inside
save, which the catch block maps to 500 — not to 400 as claimed. -/
theorem createExpense_nonpositive_amount_is_500 :
    createExpenseHandler 1 ⟨some "lunch", some (-1), some "other", none, some 1⟩ 2 0
      sampleState = .serverError ∧
    createExpenseHandler 1 ⟨some "lunch", some (-1), some "other", none, some 1⟩ 2 0
      sampleState ≠ .badRequest := by
  have ha : (-1 : ℚ) < 100⁻¹ := by norm_num
  have h : createExpenseHandler 1 ⟨some "lunch", some (-1), some "other", none, some 1⟩ 2 0
      sampleState = .serverError := by
    simp [createExpenseHandler, sampleState, sampleProject, hasAccess, List.find?,
      expenseValid, expenseCategories, builtExpense, ha]
  exact ⟨h, by rw [h]; simp⟩

/-- C5 amended: POST /expenses returns 400 exactly when description,
amount, category, or projectId is missing or empty; when those are
present and the caller has access to the project, a non-positive
amount or a category outside the enumeration instead fails schema
validation inside save and surfaces as 500. -/
theorem createExpense_validation (caller : UserId) (body : ExpenseBody)
    (eid : ExpenseId) (now : Time) (st : AppState) :
    (createExpenseHandler caller body eid now st = .badRequest ↔
      body.description.getD "" = "" ∨ body.amount = none ∨
      body.category.getD "" = "" ∨ body.projectId = none) ∧
    (∀ proj,
      ¬(body.description.getD "" = "" ∨ body.amount = none ∨
        body.category.getD "" = "" ∨ body.projectId = none) →
      st.projects.find? (fun p => p.id == body.projectId.getD 0 && hasAccess caller p) =
        some proj →
      (body.amount.getD 0 ≤ 0 ∨ body.category.getD "" ∉ expenseCategories) →
      createExpenseHandler caller body eid now st = .serverError) := by
  constructor
  · unfold createExpenseHandler
    by_cases hcond : body.description.getD "" = "" ∨ body.amount = none ∨
        body.category.getD "" = "" ∨ body.projectId = none
    · rw [if_pos hcond]; simp [hcond]
    · rw [if_neg hcond]
      constructor
      · intro h
        cases hfind : st.projects.find?
            (fun p => p.id == body.projectId.getD 0 && hasAccess caller p) with
        | none => rw [hfind] at h; simp at h
        | some p =>
          rw [hfind] at h
          dsimp only at h
          split at h <;> simp at h
      · intro h; exact absurd h hcond
  · intro proj hcond hfind hbad
    unfold createExpenseHandler
    rw [if_neg hcond, hfind]
    dsimp only
    rw [if_neg ?_]
    intro hv
    rcases hv with ⟨-, ha, hc⟩
    rcases hbad with h | h
    · simp only [builtExpense] at ha
      have : (0 : ℚ) < 1 / 100 := by norm_num
      linarith
    · simp only [builtExpense] at hc
      exact h hc

theorem createExpense_validation_witness :
    (createExpenseHandler 1 ⟨some "lunch", some (-1), some "other", none, some 1⟩ 2 0
        sampleState = .badRequest ↔
      (ExpenseBody.mk (some "lunch") (some (-1)) (some "other") none
          (some 1)).description.getD "" = "" ∨
      (ExpenseBody.mk (some "lunch") (some (-1)) (some "other") none (some 1)).amount = none ∨
      (ExpenseBody.mk (some "lunch") (some (-1)) (some "other") none
          (some 1)).category.getD "" = "" ∨
      (ExpenseBody.mk (some "lunch") (some (-1)) (some "other") none (some 1)).projectId =
        none) ∧
    (∀ proj,
      ¬((ExpenseBody.mk (some "lunch") (some (-1)) (some "other") none
          (some 1)).description.getD "" = "" ∨
        (ExpenseBody.mk (some "lunch") (some (-1)) (some "other") none (some 1)).amount =
          none ∨
        (ExpenseBody.mk (some "lunch") (some (-1)) (some "other") none
          (some 1)).category.getD "" = "" ∨
        (ExpenseBody.mk (some "lunch") (some (-1)) (some "other") none (some 1)).projectId =
          none) →
      sampleState.projects.find?
          (fun p => p.id ==
            (ExpenseBody.mk (some "lunch") (some (-1)) (some "other") none
              (some 1)).projectId.getD 0 && hasAccess 1 p) = some proj →
      ((ExpenseBody.mk (some "lunch") (some (-1)) (some "other") none (some 1)).amount.getD 0 ≤
          0 ∨
        (ExpenseBody.mk (some "lunch") (some (-1)) (some "other") none
          (some 1)).category.getD "" ∉ expenseCategories) →
      createExpenseHandler 1 ⟨some "lunch", some (-1), some "other", none, some 1⟩ 2 0
        sampleState = .serverError) :=
  createExpense_validation 1 ⟨some "lunch", some (-1), some "other", none, some 1⟩ 2 0
    sampleState

theorem touchFirst_sets (pid : ProjectId) (now : Time) (l : List Project)
    (hids : (l.map Project.id).Nodup) :
    ∀ q ∈ touchFirstProject pid now l, q.id = pid → q.updatedAt = now := by
  induction l with
  | nil => intro q hq; simp [touchFirstProject] at hq
  | cons a as ih =>
    rw [List.map_cons, List.nodup_cons] at hids
    intro q hq hqid
    unfold touchFirstProject at hq
    by_cases ha : a.id = pid
    · rw [if_pos (by simp [ha])] at hq
      rcases List.mem_cons.mp hq with h1 | h2
      · rw [h1]
      · exact absurd (List.mem_map.mpr ⟨q, h2, by rw [hqid, ha]⟩) hids.1
    · rw [if_neg (by simp [ha])] at hq
      rcases List.mem_cons.mp hq with h1 | h2
      · exact absurd (h1 ▸ hqid) ha
      · exact ih hids.2 q h2 hqid

theorem touchFirst_exists (pid : ProjectId) (now : Time) (l : List Project)
    (p : Project) (hp : p ∈ l) (hpid : p.id = pid) :
    ∃ q ∈ touchFirstProject pid now l, q.id = pid ∧ q.updatedAt = now := by
  induction l with
  | nil => cases hp
  | cons a as ih =>
    unfold touchFirstProject
    by_cases ha : a.id = pid
    · rw [if_pos (by simp [ha])]
      exact ⟨{ a with updatedAt := now }, List.mem_cons_self _ _, ha, rfl⟩
    · rw [if_neg (by simp [ha])]
      rcases List.mem_cons.mp hp with h1 | h2
      · exact absurd (h1 ▸ hpid) ha
      · obtain ⟨q, hq, hqs⟩ := ih h2
        exact ⟨q, List.mem_cons_of_mem _ hq, hqs⟩

/-- C6: a successful POST /expenses sets the parent project's
updatedAt to the creation time: the created expense references the
requested project, and in the resulting store the project with that id
carries updatedAt = now (the pre-save hook's write), assuming the
store's project ids are unique as Mongo _ids are. -/
theorem createExpense_touches_project (caller : UserId) (body : ExpenseBody)
    (eid : ExpenseId) (now : Time) (st : AppState) (e : Expense) (st' : AppState)
    (hids : (st.projects.map Project.id).Nodup)
    (h : createExpenseHandler caller body eid now st = .created e st') :
    e.project = body.projectId.getD 0 ∧
    (∃ q ∈ st'.projects, q.id = e.project ∧ q.updatedAt = now) ∧
    (∀ q ∈ st'.projects, q.id = e.project → q.updatedAt = now) := by
  unfold createExpenseHandler at h
  split at h
  · simp at h
  · rename_i hcond
    cases hfind : st.projects.find?
        (fun p => p.id == body.projectId.getD 0 && hasAccess caller p) with
    | none => rw [hfind] at h; simp at h
    | some p =>
      rw [hfind] at h
      dsimp only at h
      have hpred := List.find?_some hfind
      have hmem := List.mem_of_find?_eq_some hfind
      simp only [Bool.and_eq_true, beq_iff_eq] at hpred
      split at h
      · cases h with
        | refl =>
          refine ⟨rfl, ?_, ?_⟩
          · simpa [builtExpense] using
              touchFirst_exists (body.projectId.getD 0) now st.projects p hmem hpred.1
          · simpa [builtExpense] using
              touchFirst_sets (body.projectId.getD 0) now st.projects hids
      · simp at h

theorem createExpense_touches_project_witness :
    (builtExpense 2 ⟨some "lunch", some 5, some "hr", none, some 1⟩ 2 9).project =
      (ExpenseBody.mk (some "lunch") (some 5) (some "hr") none (some 1)).projectId.getD 0 ∧
    (∃ q ∈ (AppState.mk (touchFirstProject 1 9 sampleState.projects)
        (sampleState.expenses ++
          [builtExpense 2 ⟨some "lunch", some 5, some "hr", none, some 1⟩ 2 9])).projects,
      q.id = (builtExpense 2 ⟨some "lunch", some 5, some "hr", none, some 1⟩ 2 9).project ∧
      q.updatedAt = 9) ∧
    (∀ q ∈ (AppState.mk (touchFirstProject 1 9 sampleState.projects)
        (sampleState.expenses ++
          [builtExpense 2 ⟨some "lunch", some 5, some "hr", none, some 1⟩ 2 9])).projects,
      q.id = (builtExpense 2 ⟨some "lunch", some 5, some "hr", none, some 1⟩ 2 9).project →
      q.updatedAt = 9) := by
  refine createExpense_touches_project 2 ⟨some "lunch", some 5, some "hr", none, some 1⟩ 2 9
    sampleState _ _ (by simp [sampleState, sampleProject]) ?_
  have ha : (100⁻¹ : ℚ) ≤ 5 := by norm_num
  simp [createExpenseHandler, sampleState, sampleProject, hasAccess, List.find?,
    expenseValid, expenseCategories, builtExpense, ha]

/-- Request body of PUT /expenses/:id; only description, amount,
category and date are read. -/
structure ExpenseUpdateBody where
  description : Option String
  amount : Option ℚ
  category : Option String
  date : Option Time
deriving Repr, DecidableEq

/-- Mongoose `runValidators` on a `$set` update: only the supplied
paths are validated (required description, min-0.01 amount, enum
category). -/
def expenseUpdateValid (body : ExpenseUpdateBody) : Bool :=
  (match body.description with
    | none => true
    | some d => !(d == "")) &&
  (match body.amount with
    | none => true
    | some a => decide ((1 : ℚ) / 100 ≤ a)) &&
  (match body.category with
    | none => true
    | some c => expenseCategories.contains c)

/-- The `$set: updates` document built by the PUT /expenses/:id
handler, applied to an expense: only supplied fields change. -/
def applyExpenseUpdates (body : ExpenseUpdateBody) (e : Expense) : Expense :=
  { e with
    description := body.description.getD e.description
    amount := body.amount.getD e.amount
    category := body.category.getD e.category
    date := body.date.getD e.date }

/-- `findByIdAndUpdate`: rewrite the first (unique) expense with the
given id. -/
def updateFirstExpense (eid : ExpenseId) (f : Expense → Expense) :
    List Expense → List Expense
  | [] => []
  | e :: es => if e.id == eid then f e :: es else e :: updateFirstExpense eid f es

/-- Outcome of PUT /expenses/:id or DELETE /expenses/:id, tagged with
HTTP status. -/
inductive ExpenseMutationResult where
  /-- 404, no expense with that id -/
  | notFound
  /-- 403, caller is neither the expense's creator nor the project owner -/
  | forbidden
  /-- 200, PUT success with the updated expense and new store -/
  | updated (e : Expense) (st : AppState)
  /-- 200, DELETE success with `{deleted: true}` and the new store -/
  | deleted (ack : Bool) (st : AppState)
  /-- 500, a thrown error was caught (e.g. reading `.createdBy` of a
  null populated project, or update validation) -/
  | serverError
deriving Repr, DecidableEq

/-- PUT /expenses/:id: findById (404 when absent), populate the
project (reading `.createdBy` of a missing project throws, caught as
500), permission check (403), then `findByIdAndUpdate` with
`runValidators` (a validation failure is caught as 500). -/
def updateExpenseHandler (caller : UserId) (eid : ExpenseId)
    (body : ExpenseUpdateBody) (st : AppState) : ExpenseMutationResult :=
  match st.expenses.find? (fun x => x.id == eid) with
  | none => .notFound
  | some e =>
    match st.projects.find? (fun p => p.id == e.project) with
    | none => .serverError
    | some proj =>
      if e.createdBy ≠ caller ∧ proj.createdBy ≠ caller then .forbidden
      else
        if expenseUpdateValid body then
          .updated (applyExpenseUpdates body e)
            { st with
              expenses := updateFirstExpense eid (applyExpenseUpdates body) st.expenses }
        else .serverError

/-- DELETE /expenses/:id: findById (404), populate the project (500 on
a missing one), permission check (403), then `findByIdAndDelete` and
the `{deleted: true}` acknowledgment; the project is never written. -/
def deleteExpenseHandler (caller : UserId) (eid : ExpenseId) (st : AppState) :
    ExpenseMutationResult :=
  match st.expenses.find? (fun x => x.id == eid) with
  | none => .notFound
  | some e =>
    match st.projects.find? (fun p => p.id == e.project) with
    | none => .serverError
    | some proj =>
      if e.createdBy ≠ caller ∧ proj.createdBy ≠ caller then .forbidden
      else .deleted true { st with expenses := st.expenses.eraseP (fun x => x.id == eid) }

/-- C7 counterexample: the expense creator (user 2) deletes expense 1
of project 1; the delete succeeds but the project list of the store,
updatedAt included (still 0), is returned unchanged — DELETE
/expenses/:id never writes the project, so updatedAt is not bumped. -/
theorem deleteExpense_does_not_touch_project :
    deleteExpenseHandler 2 1 sampleState = .deleted true ⟨sampleState.projects, []⟩ ∧
    (∀ p ∈ sampleState.projects, p.updatedAt = 0) := by
  constructor
  · simp [deleteExpenseHandler, sampleState, sampleExpense, sampleProject, List.find?,
      List.eraseP]
  · intro p hp
    simp only [sampleState, List.mem_singleton] at hp
    rw [hp]
    rfl

/-- C7 amended: a successful DELETE /expenses/:id leaves every project
document — updatedAt included — unchanged, and only removes the
expense; the updatedAt refresh happens on expense creation only. -/
theorem deleteExpense_frame (caller : UserId) (eid : ExpenseId) (st : AppState)
    (ack : Bool) (st' : AppState)
    (h : deleteExpenseHandler caller eid st = .deleted ack st') :
    st'.projects = st.projects ∧
    st'.expenses = st.expenses.eraseP (fun x => x.id == eid) := by
  unfold deleteExpenseHandler at h
  split at h
  · simp at h
  · split at h
    · simp at h
    · split at h
      · simp at h
      · cases h with
        | refl => exact ⟨rfl, rfl⟩

theorem deleteExpense_frame_witness :
    (⟨sampleState.projects, []⟩ : AppState).projects = sampleState.projects ∧
    (⟨sampleState.projects, []⟩ : AppState).expenses =
      sampleState.expenses.eraseP (fun x => x.id == 1) := by
  refine deleteExpense_frame 2 1 sampleState true ⟨sampleState.projects, []⟩ ?_
  simp [deleteExpenseHandler, sampleState, sampleExpense, sampleProject, List.find?,
    List.eraseP]

/-- C8: PUT and DELETE /expenses/:id return 404 when no expense has
the id; when the expense and its project exist, a caller who is
neither the expense's creator nor the project's owner gets 403 from
both, while a caller with either role succeeds (delete always, update
whenever the supplied fields pass validation). -/
theorem expense_mutation_auth (caller : UserId) (eid : ExpenseId)
    (body : ExpenseUpdateBody) (st : AppState) :
    (st.expenses.find? (fun x => x.id == eid) = none →
      updateExpenseHandler caller eid body st = .notFound ∧
      deleteExpenseHandler caller eid st = .notFound) ∧
    (∀ e proj, st.expenses.find? (fun x => x.id == eid) = some e →
      st.projects.find? (fun p => p.id == e.project) = some proj →
      ((caller ≠ e.createdBy ∧ caller ≠ proj.createdBy) →
        updateExpenseHandler caller eid body st = .forbidden ∧
        deleteExpenseHandler caller eid st = .forbidden) ∧
      ((caller = e.createdBy ∨ caller = proj.createdBy) →
        (∃ st', deleteExpenseHandler caller eid st = .deleted true st') ∧
        (expenseUpdateValid body = true →
          ∃ e' st', updateExpenseHandler caller eid body st = .updated e' st'))) := by
  constructor
  · intro hnone
    unfold updateExpenseHandler deleteExpenseHandler
    rw [hnone]
    exact ⟨rfl, rfl⟩
  · intro e proj he hproj
    constructor
    · intro hne
      have hif : e.createdBy ≠ caller ∧ proj.createdBy ≠ caller :=
        ⟨hne.1.symm, hne.2.symm⟩
      unfold updateExpenseHandler deleteExpenseHandler
      rw [he]
      dsimp only
      rw [hproj]
      dsimp only
      rw [if_pos hif, if_pos hif]
      exact ⟨rfl, rfl⟩
    · intro hauth
      have hif : ¬(e.createdBy ≠ caller ∧ proj.createdBy ≠ caller) := by
        rintro ⟨h1, h2⟩
        cases hauth with
        | inl h => exact h1 h.symm
        | inr h => exact h2 h.symm
      constructor
      · unfold deleteExpenseHandler
        rw [he]
        dsimp only
        rw [hproj]
        dsimp only
        rw [if_neg hif]
        exact ⟨_, rfl⟩
      · intro hvalid
        unfold updateExpenseHandler
        rw [he]
        dsimp only
        rw [hproj]
        dsimp only
        rw [if_neg hif, if_pos hvalid]
        exact ⟨_, _, rfl⟩

theorem expense_mutation_auth_witness :
    (∃ st', deleteExpenseHandler 2 1 sampleState = .deleted true st') ∧
    (expenseUpdateValid ⟨some "snacks", none, none, none⟩ = true →
      ∃ e' st',
        updateExpenseHandler 2 1 ⟨some "snacks", none, none, none⟩ sampleState =
          .updated e' st') := by
  have h := (expense_mutation_auth 2 1 ⟨some "snacks", none, none, none⟩
      sampleState).2 sampleExpense sampleProject
    (by simp [sampleState, sampleExpense, List.find?])
    (by simp [sampleState, sampleExpense, sampleProject, List.find?])
  exact h.2 (Or.inl rfl)

/-- One element of the aggregation result of GET
/expenses/summary/project/:projectId: `_id` (the category),
`total: {$sum: amount}`, `count: {$sum: 1}`. -/
structure SummaryRow where
  category : String
  total : ℚ
  count : Nat
deriving Repr, DecidableEq

/-- The `$sort: {total: -1}` order: descending by total. -/
def rowLE (a b : SummaryRow) : Prop := b.total ≤ a.total

instance : DecidableRel rowLE := fun a b => inferInstanceAs (Decidable (b.total ≤ a.total))

instance : IsTotal SummaryRow rowLE := ⟨fun a b => le_total b.total a.total⟩

instance : IsTrans SummaryRow rowLE := ⟨fun _ _ _ hab hbc => le_trans hbc hab⟩

/-- The `$group: {_id: category, total: {$sum: amount}, count: {$sum: 1}}`
stage: one row per distinct category among the given expenses. -/
def summaryRows (es : List Expense) : List SummaryRow :=
  ((es.map (fun e => e.category)).dedup).map (fun c =>
    { category := c
      total := ((es.filter (fun e => e.category == c)).map (fun e => e.amount)).sum
      count := (es.filter (fun e => e.category == c)).length })

/-- GET /expenses/summary/project/:projectId: project access check
(404 as `none`), then the `$match / $group / $sort` pipeline on the
project's expenses. -/
def summarizeHandler (caller : UserId) (pid : ProjectId) (st : AppState) :
    Option (List SummaryRow) :=
  match st.projects.find? (fun p => p.id == pid && hasAccess caller p) with
  | none => none
  | some proj =>
    some (List.insertionSort rowLE
      (summaryRows (st.expenses.filter (fun e => e.project == proj.id))))

theorem summaryRows_map_category (es : List Expense) :
    (summaryRows es).map SummaryRow.category = (es.map (fun e => e.category)).dedup := by
  rw [summaryRows, List.map_map]
  exact List.map_id _

theorem filter_project_category (l : List Expense) (pid : ProjectId) (c : String) :
    (l.filter (fun e => e.project == pid)).filter (fun e => e.category == c) =
      l.filter (fun e => e.project == pid && e.category == c) := by
  rw [List.filter_filter]
  exact List.filter_congr (fun e _ => by rw [Bool.and_comm])

/-- C9: for a caller with project access, the summary returns one row
per category present among the project's expenses, each carrying the
sum of amounts and the number of expenses of that category, sorted by
total descending. -/
theorem summarize_spec (caller : UserId) (pid : ProjectId) (st : AppState)
    (rows : List SummaryRow) (h : summarizeHandler caller pid st = some rows) :
    List.Sorted rowLE rows ∧
    (rows.map SummaryRow.category).Nodup ∧
    (∀ c, c ∈ rows.map SummaryRow.category ↔
      ∃ e ∈ st.expenses, e.project = pid ∧ e.category = c) ∧
    (∀ row ∈ rows,
      row.total = ((st.expenses.filter
          (fun e => e.project == pid && e.category == row.category)).map
          (fun e => e.amount)).sum ∧
      row.count = (st.expenses.filter
          (fun e => e.project == pid && e.category == row.category)).length) := by
  unfold summarizeHandler at h
  cases hfind : st.projects.find? (fun p => p.id == pid && hasAccess caller p) with
  | none => rw [hfind] at h; simp at h
  | some proj =>
    rw [hfind] at h
    dsimp only at h
    have hpred := List.find?_some hfind
    simp only [Bool.and_eq_true, beq_iff_eq] at hpred
    rw [hpred.1] at h
    injection h with h
    subst h
    have hperm :
        List.Perm
          (List.insertionSort rowLE
            (summaryRows (st.expenses.filter (fun e => e.project == pid))))
          (summaryRows (st.expenses.filter (fun e => e.project == pid))) :=
      List.perm_insertionSort rowLE _
    have hmapperm := hperm.map SummaryRow.category
    refine ⟨List.sorted_insertionSort rowLE _, ?_, ?_, ?_⟩
    · refine hmapperm.nodup_iff.mpr ?_
      rw [summaryRows_map_category]
      exact List.nodup_dedup _
    · intro c
      rw [hmapperm.mem_iff, summaryRows_map_category, List.mem_dedup, List.mem_map]
      constructor
      · rintro ⟨e, he, hc⟩
        rw [List.mem_filter, beq_iff_eq] at he
        exact ⟨e, he.1, he.2, hc⟩
      · rintro ⟨e, he, hp, hc⟩
        exact ⟨e, List.mem_filter.mpr ⟨he, by simp [hp]⟩, hc⟩
    · intro row hrow
      have hrow2 := hperm.mem_iff.mp hrow
      rw [summaryRows, List.mem_map] at hrow2
      obtain ⟨c, -, hc⟩ := hrow2
      have hcat : row.category = c := by rw [← hc]
      rw [← hc]
      rw [← filter_project_category st.expenses pid c]
      exact ⟨rfl, rfl⟩

theorem summarize_spec_witness :
    List.Sorted rowLE [SummaryRow.mk "other" 5 1] ∧
    ([SummaryRow.mk "other" 5 1].map SummaryRow.category).Nodup ∧
    (∀ c, c ∈ [SummaryRow.mk "other" 5 1].map SummaryRow.category ↔
      ∃ e ∈ sampleState.expenses, e.project = 1 ∧ e.category = c) ∧
    (∀ row ∈ [SummaryRow.mk "other" 5 1],
      row.total = ((sampleState.expenses.filter
          (fun e => e.project == 1 && e.category == row.category)).map
          (fun e => e.amount)).sum ∧
      row.count = (sampleState.expenses.filter
          (fun e => e.project == 1 && e.category == row.category)).length) := by
  refine summarize_spec 2 1 sampleState [SummaryRow.mk "other" 5 1] ?_
  simp [summarizeHandler, sampleState, sampleProject, sampleExpense, hasAccess,
    List.find?, summaryRows]

end BudgetApp
